import Mathlib

/-!
# Timeline indexing and nearest-frame queries of the dvrescue GUI data model

The repository's test `Source/GUI/dvrescue/dvrescue.tests/datamodeltest.cpp`
exercises a `DataModel` facade: `populate` ingests a per-frame analysis report
asynchronously, and `getVideoInfo(timestamp, channel)` resolves a timestamp to
the closest recorded frame together with its odd/even field metric values.
The implementation of `DataModel` / `TimelineIndex` is not among the sources at
hand (only the test is), so the operations below are modelled from the
specification and verified against its stated properties and against the
concrete expectations of the test.

Per-field metric values are carried opaquely by every modelled operation (they
are stored and selected, never combined arithmetically), so their carrier type
is irrelevant to the verified properties; we embed them as `Int`.
-/

namespace DvRescue

/-- Modelled from the spec (§3 DATA MODEL): one decoded video frame's timing and
per-field quality metrics: frame number, capture timestamp (an integer monotonic
capture-time unit), odd field value, even field value. -/
structure FrameRecord where
  frameNumber : Nat
  timestamp : Int
  oddFieldValue : Int
  evenFieldValue : Int
  deriving Repr, DecidableEq

/-- Modelled from the spec (§7 ERROR HANDLING DESIGN): the error taxonomy. -/
inductive DvError
  | ParseError (reason : String)
  | EmptyDatasetError
  | NotPopulatedError
  | InvalidChannelError
  deriving Repr, DecidableEq

/-- Modelled from the spec (§4.2): immutable, sorted-by-timestamp container of
frame records. -/
structure TimelineIndex where
  records : List FrameRecord
  deriving Repr, DecidableEq

/-- Records listed in ascending timestamp order (the §3 invariant of a built
index). -/
abbrev TsSorted (l : List FrameRecord) : Prop :=
  List.Pairwise (fun a b => a.timestamp ≤ b.timestamp) l

/-- Records listed in strictly ascending timestamp order: pairwise distinct
timestamps.  The reference data has distinct capture timestamps; duplicate
timestamps are an open question of the spec (§9). -/
abbrev TsStrictSorted (l : List FrameRecord) : Prop :=
  List.Pairwise (fun a b => a.timestamp < b.timestamp) l

/-- Modelled from the spec (§4.2): `build` fails with `EmptyDatasetError` on an
empty record sequence and otherwise stores the records stably sorted by
ascending timestamp. -/
def TimelineIndex.build (records : List FrameRecord) : Except DvError TimelineIndex :=
  match records with
  | [] => Except.error DvError.EmptyDatasetError
  | r :: rs =>
    Except.ok ⟨List.insertionSort (fun a b => a.timestamp ≤ b.timestamp) (r :: rs)⟩

/-- Modelled from the spec (§4.2, algorithm steps 2–4): walk the sorted tail
holding the last record seen whose timestamp is below the query.  At the
insertion point `prev.timestamp < q ≤ next.timestamp`, return the bracketing
record with the smaller absolute difference, preferring the later record on an
exact tie; past the end, clamp to the last record.  (The spec locates the
insertion point by binary search; on a sorted sequence the scan below reaches
the same point, and only the returned record is observable.) -/
def nearestAux (q : Int) : FrameRecord → List FrameRecord → FrameRecord
  | prev, [] => prev
  | prev, next :: rest =>
    if q ≤ next.timestamp then
      if q - prev.timestamp < next.timestamp - q then prev else next
    else nearestAux q next rest

/-- Modelled from the spec (§4.2, algorithm step 1 plus `nearestAux`): nearest
match on a record list; `none` only for an empty list (which `build` never
produces). -/
def nearestFrameL (l : List FrameRecord) (q : Int) : Option FrameRecord :=
  match l with
  | [] => none
  | r :: rs => some (if q ≤ r.timestamp then r else nearestAux q r rs)

/-- Modelled from the spec (§4.2): `nearestFrame(queryTimestamp)` on the sorted
index. -/
def TimelineIndex.nearestFrame (idx : TimelineIndex) (q : Int) : Option FrameRecord :=
  nearestFrameL idx.records q

/-- Modelled from the spec (§4.2): `valueAt(frameRecord, channel)` selects the
odd field value for channel 0 and the even field value for channel 1, and fails
with `InvalidChannelError` for any other channel. -/
def valueAt (r : FrameRecord) (channel : Int) : Except DvError Int :=
  if channel = 0 then Except.ok r.oddFieldValue
  else if channel = 1 then Except.ok r.evenFieldValue
  else Except.error DvError.InvalidChannelError

/-- Modelled from the spec (§3): status of the most recent population attempt. -/
inductive Status
  | Empty
  | Populating
  | Ready
  | Failed
  deriving Repr, DecidableEq

/-- Modelled from the spec (§4.3): the single terminal event of a population
task: `Completed(TimelineIndex)` or `Failed(error)`. -/
inductive TaskResult
  | completed (idx : TimelineIndex)
  | failed (e : DvError)
  deriving Repr, DecidableEq

/-- Modelled from the spec (§3, §4.4): the facade state: at most one timeline
index, the population status, and the identifier of the most recently started
population task (used to discard superseded completions, §4.3). -/
structure DataModel where
  status : Status
  index : Option TimelineIndex
  currentTask : Nat
  deriving Repr, DecidableEq

/-- Modelled from the spec (§3): a fresh model starts `Empty` with no index. -/
def DataModel.initial : DataModel := ⟨Status.Empty, none, 0⟩

/-- Modelled from the spec (§4.4): `populate` transitions to `Populating` and
starts a new population task under a fresh task identifier; it returns
immediately, leaving any current index in place until a completion arrives. -/
def DataModel.populate (m : DataModel) : DataModel :=
  ⟨Status.Populating, m.index, m.currentTask + 1⟩

/-- Modelled from the spec (§4.3–§4.4): completion handling.  A completion whose
task identifier is not the most recently started one has been superseded and is
discarded, whether it carries a success or a failure.  Otherwise `completed`
installs the new index and moves to `Ready`, and `failed` discards any previous
index and moves to `Failed`. -/
def DataModel.onTaskCompleted (m : DataModel) (tid : Nat) (res : TaskResult) : DataModel :=
  if tid = m.currentTask then
    match res with
    | TaskResult.completed idx => ⟨Status.Ready, some idx, m.currentTask⟩
    | TaskResult.failed _ => ⟨Status.Failed, none, m.currentTask⟩
  else m

/-- Modelled from the spec (§4.4): `getVideoInfo(queryTimestamp, channel)`
requires status `Ready` and fails with `NotPopulatedError` otherwise; on
success it resolves the nearest frame and returns its frame number together
with both field values (both are always returned regardless of the requested
channel). -/
def DataModel.getVideoInfo (m : DataModel) (q : Int) (_channel : Int) :
    Except DvError (Nat × Int × Int) :=
  match m.status, m.index with
  | Status.Ready, some idx =>
    match idx.nearestFrame q with
    | some r => Except.ok (r.frameNumber, r.oddFieldValue, r.evenFieldValue)
    | none => Except.error DvError.NotPopulatedError
  | _, _ => Except.error DvError.NotPopulatedError

/-- Modelled from the spec (§5): queries are synchronous reads against the
immutable index; a query step yields its result and the model it leaves
behind. -/
def DataModel.getVideoInfoStep (m : DataModel) (q ch : Int) :
    Except DvError (Nat × Int × Int) × DataModel :=
  (m.getVideoInfo q ch, m)

/-- Run a sequence of `getVideoInfo` calls, threading the model state through
each step and collecting every result in order. -/
def runQueries : DataModel → List (Int × Int) →
    DataModel × List (Except DvError (Nat × Int × Int))
  | m, [] => (m, [])
  | m, (q, ch) :: rest =>
    let step := m.getVideoInfoStep q ch
    let cont := runQueries step.2 rest
    (cont.1, step.1 :: cont.2)

/-- The model reached from `m0` by one `populate` whose task completes
successfully with index `idx` (the `populated` notification has been
delivered). -/
def populatedModel (m0 : DataModel) (idx : TimelineIndex) : DataModel :=
  m0.populate.onTaskCompleted m0.populate.currentTask (TaskResult.completed idx)

/-- Modelled from the spec (§8): the reference dataset is available only through
the seven query/expected-frame pairs of the scenario table (the XML report
`DVC02339 - 0_00_00_07.dv.xml` loaded by the test is not among the sources).
The records below realise every constraint the table pins down: frames 89424,
89491, 89499 and 89500 are present with capture timestamps equal to their frame
numbers, 89500 is the last record, and no record lies between the queried
points inside the gap (89424, 89491). -/
def referenceDataset : List FrameRecord :=
  [⟨89424, 89424, 10, 11⟩, ⟨89491, 89491, 20, 21⟩,
   ⟨89499, 89499, 30, 31⟩, ⟨89500, 89500, 40, 41⟩]

/-- The model observed by `DataModelTest::test_info` after its single `populate`
of the reference dataset has completed and `populated` has fired. -/
def referenceModel : DataModel :=
  match TimelineIndex.build referenceDataset with
  | Except.ok idx => populatedModel DataModel.initial idx
  | Except.error e =>
    DataModel.initial.populate.onTaskCompleted
      DataModel.initial.populate.currentTask (TaskResult.failed e)

/-- First component (the resolved frame number) of a successful `getVideoInfo`
result, `none` on failure. -/
def frameOf (r : Except DvError (Nat × Int × Int)) : Option Nat :=
  match r with
  | Except.ok (fn, _, _) => some fn
  | Except.error _ => none

/-!
## Verified properties

Helper lemmas come first; each claim is settled by one theorem, with a witness
instantiating its hypotheses at concrete inputs where it has any.
-/

/-- The record `nearestAux` returns is one of the candidates it was given. -/
theorem nearestAux_mem (q : Int) (prev : FrameRecord) (rest : List FrameRecord) :
    nearestAux q prev rest ∈ prev :: rest := by
  induction rest generalizing prev with
  | nil => simp [nearestAux]
  | cons next rest ih =>
    simp only [nearestAux]
    by_cases h1 : q ≤ next.timestamp
    · rw [if_pos h1]
      by_cases h2 : q - prev.timestamp < next.timestamp - q
      · rw [if_pos h2]; exact List.mem_cons_self _ _
      · rw [if_neg h2]; exact List.mem_cons_of_mem _ (List.mem_cons_self _ _)
    · rw [if_neg h1]
      exact List.mem_cons_of_mem _ (ih next)

/-- On a sorted candidate list whose first element lies strictly below the
query, `nearestAux` returns a record of minimal absolute timestamp distance. -/
theorem nearestAux_optimal (q : Int) (prev : FrameRecord) (rest : List FrameRecord)
    (hs : TsSorted (prev :: rest)) (hq : prev.timestamp < q) :
    ∀ r ∈ prev :: rest,
      ((nearestAux q prev rest).timestamp - q).natAbs ≤ (r.timestamp - q).natAbs := by
  induction rest generalizing prev with
  | nil =>
    intro r hr
    simp only [List.mem_singleton] at hr
    subst hr
    simp [nearestAux]
  | cons next rest ih =>
    have hpn : prev.timestamp ≤ next.timestamp :=
      (List.pairwise_cons.mp hs).1 next (List.mem_cons_self _ _)
    have hs2 : TsSorted (next :: rest) := (List.pairwise_cons.mp hs).2
    have hnextrest : ∀ s ∈ rest, next.timestamp ≤ s.timestamp :=
      (List.pairwise_cons.mp hs2).1
    intro r hr
    simp only [nearestAux]
    by_cases h1 : q ≤ next.timestamp
    · rw [if_pos h1]
      rcases List.mem_cons.mp hr with rfl | hr2
      · by_cases h2 : q - r.timestamp < next.timestamp - q
        · rw [if_pos h2]
        · rw [if_neg h2]; omega
      · rcases List.mem_cons.mp hr2 with rfl | hr3
        · by_cases h2 : q - prev.timestamp < r.timestamp - q
          · rw [if_pos h2]; omega
          · rw [if_neg h2]
        · have hnr := hnextrest r hr3
          by_cases h2 : q - prev.timestamp < next.timestamp - q
          · rw [if_pos h2]; omega
          · rw [if_neg h2]; omega
    · rw [if_neg h1]
      push_neg at h1
      have key := ih next hs2 h1
      rcases List.mem_cons.mp hr with rfl | hr2
      · have h3 := key next (List.mem_cons_self _ _)
        omega
      · exact key r hr2

/-- C2: for every non-empty `TimelineIndex` sorted by timestamp and every
integer query, `nearestFrame` returns a record of the index whose absolute
timestamp difference from the query is less than or equal to that of every
other record of the index. -/
theorem nearestFrame_optimal (idx : TimelineIndex) (q : Int) (r : FrameRecord)
    (hs : TsSorted idx.records) (h : idx.nearestFrame q = some r) :
    r ∈ idx.records ∧
      ∀ s ∈ idx.records, (r.timestamp - q).natAbs ≤ (s.timestamp - q).natAbs := by
  rcases hrec : idx.records with _ | ⟨first, rest⟩
  · rw [TimelineIndex.nearestFrame, hrec] at h
    simp [nearestFrameL] at h
  · rw [TimelineIndex.nearestFrame, hrec] at h
    rw [hrec] at hs
    simp only [nearestFrameL, Option.some.injEq] at h
    by_cases h1 : q ≤ first.timestamp
    · rw [if_pos h1] at h
      subst h
      refine ⟨List.mem_cons_self _ _, ?_⟩
      intro s hsmem
      rcases List.mem_cons.mp hsmem with rfl | hs2
      · omega
      · have := (List.pairwise_cons.mp hs).1 s hs2
        omega
    · rw [if_neg h1] at h
      push_neg at h1
      subst h
      exact ⟨nearestAux_mem q first rest, nearestAux_optimal q first rest hs h1⟩

/-- Witness for C2 at a two-record index and query 89430: the returned record
89424 is in the index and is at least as close as the record 89491. -/
theorem nearestFrame_optimal_witness :
    (⟨89424, 89424, 10, 11⟩ : FrameRecord) ∈
        (TimelineIndex.mk [⟨89424, 89424, 10, 11⟩, ⟨89491, 89491, 20, 21⟩]).records ∧
      ((89424 : Int) - 89430).natAbs ≤ ((89491 : Int) - 89430).natAbs := by
  have h := nearestFrame_optimal ⟨[⟨89424, 89424, 10, 11⟩, ⟨89491, 89491, 20, 21⟩]⟩
    89430 ⟨89424, 89424, 10, 11⟩ (by decide) (by decide)
  exact ⟨h.1, h.2 ⟨89491, 89491, 20, 21⟩ (by decide)⟩

/-- Past every record strictly below the query, `nearestAux` clamps to the last
record whenever the query is at or above the last timestamp. -/
theorem nearestAux_high (q : Int) (prev last : FrameRecord) (rest : List FrameRecord)
    (hs : TsStrictSorted (prev :: rest)) (hq : prev.timestamp < q)
    (hlast : (prev :: rest).getLast? = some last) (hql : last.timestamp ≤ q) :
    nearestAux q prev rest = last := by
  induction rest generalizing prev with
  | nil =>
    simp only [List.getLast?_singleton, Option.some.injEq] at hlast
    subst hlast
    rfl
  | cons next rest ih =>
    have hlast2 : (next :: rest).getLast? = some last := by
      rw [List.getLast?_cons_cons] at hlast; exact hlast
    have hs2 : TsStrictSorted (next :: rest) := (List.pairwise_cons.mp hs).2
    have hmemlast : last ∈ next :: rest := List.mem_of_mem_getLast? hlast2
    have hnl : next.timestamp ≤ last.timestamp := by
      rcases List.mem_cons.mp hmemlast with rfl | hmem2
      · exact le_refl _
      · exact le_of_lt ((List.pairwise_cons.mp hs2).1 last hmem2)
    simp only [nearestAux]
    by_cases h1 : q ≤ next.timestamp
    · have hlasteq : last = next := by
        rcases List.mem_cons.mp hmemlast with rfl | hmem2
        · rfl
        · have := (List.pairwise_cons.mp hs2).1 last hmem2
          omega
      subst hlasteq
      rw [if_pos h1, if_neg (by omega)]
    · push_neg at h1
      rw [if_neg (not_le.mpr h1)]
      exact ih next hs2 h1 hlast2

/-- C3: for every non-empty `TimelineIndex` (strictly ascending timestamps),
`nearestFrame` clamps out-of-range queries: any query at or below the minimum
timestamp returns the first record, and any query at or above the maximum
timestamp returns the last record, however far outside the range the query
lies. -/
theorem nearestFrame_clamp (idx : TimelineIndex) (first last : FrameRecord) (q : Int)
    (hs : TsStrictSorted idx.records)
    (hfirst : idx.records.head? = some first)
    (hlast : idx.records.getLast? = some last) :
    (q ≤ first.timestamp → idx.nearestFrame q = some first) ∧
    (last.timestamp ≤ q → idx.nearestFrame q = some last) := by
  rcases hrec : idx.records with _ | ⟨a, rest⟩
  · rw [hrec] at hfirst
    simp at hfirst
  · rw [hrec] at hfirst hlast hs
    simp only [List.head?_cons, Option.some.injEq] at hfirst
    subst hfirst
    constructor
    · intro hql
      simp only [TimelineIndex.nearestFrame, hrec, nearestFrameL]
      rw [if_pos hql]
    · intro hqh
      simp only [TimelineIndex.nearestFrame, hrec, nearestFrameL]
      by_cases h1 : q ≤ a.timestamp
      · rw [if_pos h1]
        have hmeml : last ∈ a :: rest := List.mem_of_mem_getLast? hlast
        rcases List.mem_cons.mp hmeml with rfl | hmem2
        · rfl
        · have := (List.pairwise_cons.mp hs).1 last hmem2
          omega
      · push_neg at h1
        rw [if_neg (not_le.mpr h1)]
        rw [nearestAux_high q a last rest hs h1 hlast hqh]

/-- Witness for C3 at a two-record index: query 50 (below the range) resolves to
the first record and query 999 (above the range) resolves to the last record. -/
theorem nearestFrame_clamp_witness :
    (TimelineIndex.mk [⟨1, 100, 0, 0⟩, ⟨2, 200, 0, 0⟩]).nearestFrame 50
        = some ⟨1, 100, 0, 0⟩ ∧
      (TimelineIndex.mk [⟨1, 100, 0, 0⟩, ⟨2, 200, 0, 0⟩]).nearestFrame 999
        = some ⟨2, 200, 0, 0⟩ :=
  ⟨(nearestFrame_clamp ⟨[⟨1, 100, 0, 0⟩, ⟨2, 200, 0, 0⟩]⟩ ⟨1, 100, 0, 0⟩ ⟨2, 200, 0, 0⟩ 50
      (by decide) (by decide) (by decide)).1 (by decide),
    (nearestFrame_clamp ⟨[⟨1, 100, 0, 0⟩, ⟨2, 200, 0, 0⟩]⟩ ⟨1, 100, 0, 0⟩ ⟨2, 200, 0, 0⟩ 999
      (by decide) (by decide) (by decide)).2 (by decide)⟩

/-- Past every record strictly below the query, `nearestAux` returns the unique
record whose timestamp equals the query exactly. -/
theorem nearestAux_exact (q : Int) (prev r : FrameRecord) (rest : List FrameRecord)
    (hs : TsStrictSorted (prev :: rest)) (hq : prev.timestamp < q)
    (hmem : r ∈ rest) (hr : r.timestamp = q) :
    nearestAux q prev rest = r := by
  induction rest generalizing prev with
  | nil => simp at hmem
  | cons next rest ih =>
    have hs2 : TsStrictSorted (next :: rest) := (List.pairwise_cons.mp hs).2
    simp only [nearestAux]
    rcases List.mem_cons.mp hmem with rfl | hmem2
    · rw [if_pos (le_of_eq hr.symm), if_neg (by omega)]
    · have hnr : next.timestamp < r.timestamp := (List.pairwise_cons.mp hs2).1 r hmem2
      rw [if_neg (by omega)]
      exact ih next hs2 (by omega) hmem2

/-- C4: for every non-empty `TimelineIndex` (strictly ascending timestamps) and
every query that equals the timestamp of some record of the index exactly,
`nearestFrame` returns that record. -/
theorem nearestFrame_exact (idx : TimelineIndex) (r : FrameRecord) (q : Int)
    (hs : TsStrictSorted idx.records) (hmem : r ∈ idx.records)
    (hr : r.timestamp = q) :
    idx.nearestFrame q = some r := by
  rcases hrec : idx.records with _ | ⟨a, rest⟩
  · rw [hrec] at hmem
    simp at hmem
  · rw [hrec] at hmem hs
    simp only [TimelineIndex.nearestFrame, hrec, nearestFrameL]
    rcases List.mem_cons.mp hmem with rfl | hmem2
    · rw [if_pos (le_of_eq hr.symm)]
    · have har : a.timestamp < r.timestamp := (List.pairwise_cons.mp hs).1 r hmem2
      rw [if_neg (by omega)]
      rw [nearestAux_exact q a r rest hs (by omega) hmem2 hr]

/-- Witness for C4: query 200 returns the record with timestamp 200. -/
theorem nearestFrame_exact_witness :
    (TimelineIndex.mk [⟨1, 100, 0, 0⟩, ⟨2, 200, 0, 0⟩]).nearestFrame 200
      = some ⟨2, 200, 0, 0⟩ :=
  nearestFrame_exact ⟨[⟨1, 100, 0, 0⟩, ⟨2, 200, 0, 0⟩]⟩ ⟨2, 200, 0, 0⟩ 200
    (by decide) (by decide) (by decide)

/-- Walking down to the pair bracketing an exactly equidistant query,
`nearestAux` returns the later record of the pair. -/
theorem nearestAux_tie (q : Int) (a b : FrameRecord) (suf : List FrameRecord)
    (pre : List FrameRecord) :
    ∀ prev, TsStrictSorted (prev :: pre ++ a :: b :: suf) → prev.timestamp < q →
      a.timestamp < q → q < b.timestamp → q - a.timestamp = b.timestamp - q →
      nearestAux q prev (pre ++ a :: b :: suf) = b := by
  induction pre with
  | nil =>
    intro prev hs hq ha hb heq
    simp only [List.nil_append, nearestAux]
    rw [if_neg (by omega), if_pos (le_of_lt hb), if_neg (by omega)]
  | cons c pre ih =>
    intro prev hs hq ha hb heq
    have hs2 : TsStrictSorted (c :: pre ++ a :: b :: suf) := (List.pairwise_cons.mp hs).2
    have hca : c.timestamp < a.timestamp :=
      (List.pairwise_cons.mp hs2).1 a (by simp)
    simp only [List.cons_append, nearestAux]
    rw [if_neg (by omega)]
    exact ih c hs2 (by omega) ha hb heq

/-- C5: for every non-empty `TimelineIndex` (strictly ascending timestamps) and
every query strictly between two adjacent records and exactly equidistant from
both, `nearestFrame` returns the later (higher-timestamp) record. -/
theorem nearestFrame_tiebreak (idx : TimelineIndex) (pre suf : List FrameRecord)
    (a b : FrameRecord) (q : Int)
    (hs : TsStrictSorted idx.records)
    (hrec : idx.records = pre ++ a :: b :: suf)
    (ha : a.timestamp < q) (hb : q < b.timestamp)
    (heq : q - a.timestamp = b.timestamp - q) :
    idx.nearestFrame q = some b := by
  rw [hrec] at hs
  simp only [TimelineIndex.nearestFrame, hrec]
  rcases pre with _ | ⟨c, pre2⟩
  · simp only [List.nil_append, nearestFrameL]
    rw [if_neg (by omega)]
    simp only [nearestAux]
    rw [if_pos (le_of_lt hb), if_neg (by omega)]
  · simp only [List.cons_append, nearestFrameL]
    rw [List.cons_append] at hs
    have hca : c.timestamp < a.timestamp :=
      (List.pairwise_cons.mp hs).1 a (by simp)
    rw [if_neg (by omega)]
    rw [nearestAux_tie q a b suf pre2 c hs (by omega) ha hb heq]

/-- Witness for C5: query 150 is equidistant from timestamps 100 and 200 and
resolves to the later record, the one with timestamp 200. -/
theorem nearestFrame_tiebreak_witness :
    (TimelineIndex.mk [⟨1, 100, 0, 0⟩, ⟨2, 200, 0, 0⟩]).nearestFrame 150
      = some ⟨2, 200, 0, 0⟩ :=
  nearestFrame_tiebreak ⟨[⟨1, 100, 0, 0⟩, ⟨2, 200, 0, 0⟩]⟩ [] [] ⟨1, 100, 0, 0⟩
    ⟨2, 200, 0, 0⟩ 150 (by decide) rfl (by decide) (by decide) (by decide)

/-- A completion carrying a task identifier other than the most recently
started one is discarded: the model is unchanged. -/
theorem onTaskCompleted_superseded (m : DataModel) (tid : Nat) (res : TaskResult)
    (h : tid ≠ m.currentTask) : m.onTaskCompleted tid res = m := by
  simp [DataModel.onTaskCompleted, h]

/-- Completion handling never changes which task is the most recent one. -/
theorem onTaskCompleted_currentTask (m : DataModel) (tid : Nat) (res : TaskResult) :
    (m.onTaskCompleted tid res).currentTask = m.currentTask := by
  simp only [DataModel.onTaskCompleted]
  split
  · cases res <;> rfl
  · rfl

/-- C6: if `populate` is called again while an earlier population task is in
flight, only the most recently started task's result is applied: after the
newer task's result (any `res2`) has been applied, the older task's late
result (any `res1`, success or failure) leaves the model unchanged; and the
older task's result arriving before the newer one completes is likewise
discarded (last call wins). -/
theorem populate_supersession (m : DataModel) (res1 res2 : TaskResult) :
    (m.populate.populate.onTaskCompleted m.populate.populate.currentTask res2).onTaskCompleted
        m.populate.currentTask res1
      = m.populate.populate.onTaskCompleted m.populate.populate.currentTask res2 ∧
    m.populate.populate.onTaskCompleted m.populate.currentTask res1 = m.populate.populate := by
  have hct1 : m.populate.currentTask = m.currentTask + 1 := rfl
  have hct2 : m.populate.populate.currentTask = m.currentTask + 2 := rfl
  constructor
  · apply onTaskCompleted_superseded
    rw [onTaskCompleted_currentTask, hct1, hct2]
    omega
  · apply onTaskCompleted_superseded
    rw [hct1, hct2]
    omega

/-- C7: whenever `getVideoInfo` is called while the model's status is not
`Ready` (for example before any `populated` notification), it fails
synchronously with `NotPopulatedError` and returns no frame data. -/
theorem getVideoInfo_requires_ready (m : DataModel) (q ch : Int)
    (h : m.status ≠ Status.Ready) :
    m.getVideoInfo q ch = Except.error DvError.NotPopulatedError := by
  obtain ⟨st, ix, ct⟩ := m
  cases st with
  | Ready => exact absurd rfl h
  | Empty => rfl
  | Populating => rfl
  | Failed => rfl

/-- Witness for C7: querying the freshly constructed model fails with
`NotPopulatedError`. -/
theorem getVideoInfo_requires_ready_witness :
    DataModel.initial.getVideoInfo 0 0 = Except.error DvError.NotPopulatedError :=
  getVideoInfo_requires_ready DataModel.initial 0 0 (by decide)

/-- C8: for every frame record, `valueAt` returns the odd field value for
channel 0 and the even field value for channel 1, and fails synchronously with
`InvalidChannelError` for every channel outside 0 and 1. -/
theorem valueAt_channel (r : FrameRecord) (channel : Int) :
    (channel = 0 → valueAt r channel = Except.ok r.oddFieldValue) ∧
    (channel = 1 → valueAt r channel = Except.ok r.evenFieldValue) ∧
    (channel ≠ 0 → channel ≠ 1 →
      valueAt r channel = Except.error DvError.InvalidChannelError) := by
  refine ⟨fun h0 => ?_, fun h1 => ?_, fun h0 h1 => ?_⟩
  · simp [valueAt, h0]
  · simp [valueAt, h1]
  · simp [valueAt, h0, h1]

/-- Witness for C8 at a concrete record: channel 0 selects the odd value 5,
channel 1 selects the even value 7, and channel 2 is rejected. -/
theorem valueAt_channel_witness :
    valueAt ⟨0, 0, 5, 7⟩ 0 = Except.ok 5 ∧
      valueAt ⟨0, 0, 5, 7⟩ 1 = Except.ok 7 ∧
      valueAt ⟨0, 0, 5, 7⟩ 2 = Except.error DvError.InvalidChannelError :=
  ⟨(valueAt_channel ⟨0, 0, 5, 7⟩ 0).1 rfl,
    (valueAt_channel ⟨0, 0, 5, 7⟩ 1).2.1 rfl,
    (valueAt_channel ⟨0, 0, 5, 7⟩ 2).2.2 (by decide) (by decide)⟩

/-- C9: `TimelineIndex.build` fails with `EmptyDatasetError` on the empty
record sequence and constructs no index there, and for every non-empty input
it succeeds (so in particular it never fails with `EmptyDatasetError`). -/
theorem build_empty_behaviour :
    TimelineIndex.build [] = Except.error DvError.EmptyDatasetError ∧
    ∀ (r : FrameRecord) (rs : List FrameRecord),
      ∃ idx, TimelineIndex.build (r :: rs) = Except.ok idx :=
  ⟨rfl, fun _ _ => ⟨_, rfl⟩⟩

/-- Running any sequence of queries leaves the model exactly as it was. -/
theorem runQueries_fst (m : DataModel) (qs : List (Int × Int)) :
    (runQueries m qs).1 = m := by
  induction qs with
  | nil => rfl
  | cons p rest ih =>
    obtain ⟨q, ch⟩ := p
    simpa only [runQueries, DataModel.getVideoInfoStep] using ih

/-- Each query's result is the pointwise `getVideoInfo` of the starting model:
results do not depend on which queries ran before. -/
theorem runQueries_snd (m : DataModel) (qs : List (Int × Int)) :
    (runQueries m qs).2 = qs.map (fun p => m.getVideoInfo p.1 p.2) := by
  induction qs with
  | nil => rfl
  | cons p rest ih =>
    obtain ⟨q, ch⟩ := p
    simp only [runQueries, DataModel.getVideoInfoStep, List.map_cons]
    rw [ih]

/-- A successfully built index holds exactly as many records as its input. -/
theorem build_records_length (r0 : FrameRecord) (rs : List FrameRecord)
    (idx : TimelineIndex) (h : TimelineIndex.build (r0 :: rs) = Except.ok idx) :
    idx.records.length = rs.length + 1 := by
  simp only [TimelineIndex.build, Except.ok.injEq] at h
  rw [← h]
  show (List.insertionSort (fun a b => a.timestamp ≤ b.timestamp) (r0 :: rs)).length
    = rs.length + 1
  rw [List.length_insertionSort, List.length_cons]

/-- The model reached by a successful populate is `Ready` and holds the new
index. -/
theorem populatedModel_eq (m0 : DataModel) (idx : TimelineIndex) :
    populatedModel m0 idx = ⟨Status.Ready, some idx, m0.currentTask + 1⟩ := by
  simp [populatedModel, DataModel.populate, DataModel.onTaskCompleted]

/-- C10: queries are read-only: after one successful populate (one `populated`
notification) and with no intervening populate, running any sequence of
`getVideoInfo` calls leaves the model (status and index) unchanged, every
result equals the pointwise `getVideoInfo` of the populated model regardless of
which calls preceded it, and every `getVideoInfo` call succeeds, returning a
frame-number/odd-value/even-value triple. -/
theorem queries_readonly (m0 : DataModel) (r0 : FrameRecord) (rs : List FrameRecord)
    (idx : TimelineIndex) (qs : List (Int × Int))
    (hbuild : TimelineIndex.build (r0 :: rs) = Except.ok idx) :
    (runQueries (populatedModel m0 idx) qs).1 = populatedModel m0 idx ∧
    (runQueries (populatedModel m0 idx) qs).2
      = qs.map (fun p => (populatedModel m0 idx).getVideoInfo p.1 p.2) ∧
    ∀ q ch : Int, ∃ fn odd even,
      (populatedModel m0 idx).getVideoInfo q ch = Except.ok (fn, odd, even) := by
  refine ⟨runQueries_fst _ _, runQueries_snd _ _, fun q ch => ?_⟩
  have hlen := build_records_length r0 rs idx hbuild
  rcases hrec : idx.records with _ | ⟨a, rest⟩
  · rw [hrec] at hlen
    simp at hlen
  · refine ⟨(if q ≤ a.timestamp then a else nearestAux q a rest).frameNumber,
      (if q ≤ a.timestamp then a else nearestAux q a rest).oddFieldValue,
      (if q ≤ a.timestamp then a else nearestAux q a rest).evenFieldValue, ?_⟩
    rw [populatedModel_eq]
    simp only [DataModel.getVideoInfo, TimelineIndex.nearestFrame, nearestFrameL, hrec]

/-- Witness for C10: one query against a freshly populated one-record model
leaves the model unchanged. -/
theorem queries_readonly_witness :
    (runQueries (populatedModel DataModel.initial ⟨[⟨0, 0, 1, 2⟩]⟩) [(5, 0)]).1
      = populatedModel DataModel.initial ⟨[⟨0, 0, 1, 2⟩]⟩ :=
  (queries_readonly DataModel.initial ⟨0, 0, 1, 2⟩ [] ⟨[⟨0, 0, 1, 2⟩]⟩ [(5, 0)] rfl).1

/-- C1: on the modelled reference dataset, after one successful populate,
`getVideoInfo` resolves each of the seven reference queries to exactly the
expected frame number: 89517 to 89500, 189500 to 89500, 89500 to 89500, 89499
to 89499, 89491 to 89491, 89490 to 89491 and 89429 to 89424. -/
theorem reference_queries_resolve :
    frameOf (referenceModel.getVideoInfo 89517 0) = some 89500 ∧
    frameOf (referenceModel.getVideoInfo 189500 0) = some 89500 ∧
    frameOf (referenceModel.getVideoInfo 89500 0) = some 89500 ∧
    frameOf (referenceModel.getVideoInfo 89499 0) = some 89499 ∧
    frameOf (referenceModel.getVideoInfo 89491 0) = some 89491 ∧
    frameOf (referenceModel.getVideoInfo 89490 0) = some 89491 ∧
    frameOf (referenceModel.getVideoInfo 89429 0) = some 89424 := by
  decide

end DvRescue
